import Mathlib

/-!
Verification of the military-surveillance backend (backend/main.py).
Shallow embedding: pure Lean functions mirror the Python helpers and the
endpoint bodies.  Machine floats are modelled as rationals, Python strings
as Lean strings (character lists when scanned), numpy images as opaque base
values carrying an explicit list of drawing operations, and the mutable
buffer store of the annotator as an explicit heap.
-/

set_option autoImplicit false

namespace Surveillance

/-- Boolean substring test on character lists, mirroring the Python string
operator `kw in s`: kw is a prefix of s, or a substring of the tail of s. -/
def containsSub : List Char → List Char → Bool
  | kw, [] => kw.isEmpty
  | kw, c :: rest => kw.isPrefixOf (c :: rest) || containsSub kw rest

/-- Lower-casing of a Python string, `class_name.lower()` in main.py line 192,
as a list of characters. -/
def lowerChars (s : String) : List Char := s.data.map Char.toLower

/-- The fixed keyword set of determine_status, main.py line 191.  The Python
set literal is modelled as a list; only membership is ever used. -/
def threat_keywords : List String := [("uav"), ("drone"), ("unknown"), ("aircraft")]

/-- Embedding of determine_status, main.py lines 189 to 196.  Confidence is a
rational standing for the Python float. -/
def determine_status (confidence : ℚ) (class_name : String) : String :=
  if (threat_keywords.any fun kw => containsSub kw.data (lowerChars class_name)) ∧ confidence > 80 then
    ("threat")
  else if confidence > 85 then ("verified")
  else ("analyzing")

theorem containsSub_iff (kw l : List Char) :
    containsSub kw l = true ↔ ∃ pre post, l = pre ++ kw ++ post := by
  induction l with
  | nil =>
    simp only [containsSub, List.isEmpty_iff]
    constructor
    · rintro rfl
      exact ⟨[], [], rfl⟩
    · rintro ⟨pre, post, h⟩
      rcases List.append_eq_nil.mp h.symm with ⟨h1, -⟩
      exact (List.append_eq_nil.mp h1).2
  | cons c rest ih =>
    simp only [containsSub, Bool.or_eq_true]
    constructor
    · rintro (hp | hs)
      · obtain ⟨t, ht⟩ := List.isPrefixOf_iff_prefix.mp hp
        exact ⟨[], t, by rw [List.nil_append]; exact ht.symm⟩
      · obtain ⟨pre, post, h⟩ := ih.mp hs
        exact ⟨c :: pre, post, by simp [h]⟩
    · rintro ⟨pre, post, h⟩
      cases pre with
      | nil =>
        refine Or.inl (List.isPrefixOf_iff_prefix.mpr ⟨post, ?_⟩)
        simpa using h.symm
      | cons p pre =>
        refine Or.inr (ih.mpr ⟨pre, post, ?_⟩)
        have h2 := h
        simp only [List.cons_append] at h2
        exact (List.cons_eq_cons.mp h2).2

theorem keywordHit_iff (label : String) :
    ((threat_keywords.any fun kw => containsSub kw.data (lowerChars label)) = true) ↔
      ∃ kw ∈ threat_keywords, ∃ pre post, lowerChars label = pre ++ kw.data ++ post := by
  simp only [List.any_eq_true]
  constructor
  · rintro ⟨kw, hkw, h⟩
    exact ⟨kw, hkw, (containsSub_iff kw.data (lowerChars label)).mp h⟩
  · rintro ⟨kw, hkw, h⟩
    exact ⟨kw, hkw, (containsSub_iff kw.data (lowerChars label)).mpr h⟩

/-- C1: the status heuristic is a pure function of label and confidence
matching the documented three-branch rule: threat exactly when some keyword
of the fixed set occurs in the lower-cased label and confidence exceeds 80;
verified exactly when no qualifying keyword hit exists and confidence exceeds
85; analyzing otherwise.  In particular a label containing the drone keyword
keeps status threat for every confidence above 80 even above 85, and the
label tank gives analyzing at confidence at most 85 and verified above 85. -/
theorem c1_status_heuristic (label : String) (c : ℚ) :
    (determine_status c label = ("threat") ↔
      (∃ kw ∈ threat_keywords, ∃ pre post, lowerChars label = pre ++ kw.data ++ post) ∧ c > 80) ∧
    (determine_status c label = ("verified") ↔
      (¬((∃ kw ∈ threat_keywords, ∃ pre post, lowerChars label = pre ++ kw.data ++ post) ∧ c > 80) ∧
        c > 85)) ∧
    (determine_status c label = ("analyzing") ↔
      (¬((∃ kw ∈ threat_keywords, ∃ pre post, lowerChars label = pre ++ kw.data ++ post) ∧ c > 80) ∧
        ¬(c > 85))) ∧
    ((∃ pre post, lowerChars label = pre ++ ("drone").data ++ post) → c > 80 →
      determine_status c label = ("threat")) ∧
    (c ≤ 85 → determine_status c ("tank") = ("analyzing")) ∧
    (c > 85 → determine_status c ("tank") = ("verified")) := by
  have hk := keywordHit_iff label
  have htank : (threat_keywords.any fun kw => containsSub kw.data (lowerChars ("tank"))) = false := by
    decide
  have hmain : ∀ s : String,
      determine_status c s =
        if (threat_keywords.any fun kw => containsSub kw.data (lowerChars s)) ∧ c > 80 then ("threat")
        else if c > 85 then ("verified") else ("analyzing") := fun s => rfl
  by_cases h1 : ((threat_keywords.any fun kw => containsSub kw.data (lowerChars label)) = true) ∧ c > 80
  · have hst : determine_status c label = ("threat") := by
      rw [hmain, if_pos h1]
    refine ⟨?_, ?_, ?_, ?_, ?_, ?_⟩
    · exact ⟨fun _ => ⟨hk.mp h1.1, h1.2⟩, fun _ => hst⟩
    · constructor
      · intro h; rw [hst] at h; exact absurd h (by decide)
      · rintro ⟨hno, -⟩; exact absurd ⟨hk.mp h1.1, h1.2⟩ hno
    · constructor
      · intro h; rw [hst] at h; exact absurd h (by decide)
      · rintro ⟨hno, -⟩; exact absurd ⟨hk.mp h1.1, h1.2⟩ hno
    · intro _ _; exact hst
    · intro hc
      rw [hmain, if_neg, if_neg]
      · exact fun h85 => absurd h85 (not_lt.mpr hc)
      · rw [htank]; rintro ⟨h, -⟩; exact absurd h (by decide)
    · intro hc
      rw [hmain, if_neg, if_pos hc]
      rw [htank]; rintro ⟨h, -⟩; exact absurd h (by decide)
  · have hno : ¬((∃ kw ∈ threat_keywords, ∃ pre post, lowerChars label = pre ++ kw.data ++ post) ∧ c > 80) := by
      rintro ⟨hex, hc⟩; exact h1 ⟨hk.mpr hex, hc⟩
    by_cases h85 : c > 85
    · have hst : determine_status c label = ("verified") := by
        rw [hmain, if_neg h1, if_pos h85]
      refine ⟨?_, ?_, ?_, ?_, ?_, ?_⟩
      · constructor
        · intro h; rw [hst] at h; exact absurd h (by decide)
        · rintro ⟨hex, hc⟩; exact absurd ⟨hk.mpr hex, hc⟩ h1
      · exact ⟨fun _ => ⟨hno, h85⟩, fun _ => hst⟩
      · constructor
        · intro h; rw [hst] at h; exact absurd h (by decide)
        · rintro ⟨-, hn85⟩; exact absurd h85 hn85
      · intro hdr hc
        exact absurd ⟨hk.mpr ⟨("drone"), by decide, hdr⟩, hc⟩ h1
      · intro hc
        rw [hmain, if_neg, if_neg]
        · exact fun h => absurd h (not_lt.mpr hc)
        · rw [htank]; rintro ⟨h, -⟩; exact absurd h (by decide)
      · intro hc
        rw [hmain, if_neg, if_pos hc]
        rw [htank]; rintro ⟨h, -⟩; exact absurd h (by decide)
    · have hst : determine_status c label = ("analyzing") := by
        rw [hmain, if_neg h1, if_neg h85]
      refine ⟨?_, ?_, ?_, ?_, ?_, ?_⟩
      · constructor
        · intro h; rw [hst] at h; exact absurd h (by decide)
        · rintro ⟨hex, hc⟩; exact absurd ⟨hk.mpr hex, hc⟩ h1
      · constructor
        · intro h; rw [hst] at h; exact absurd h (by decide)
        · rintro ⟨-, hc⟩; exact absurd hc h85
      · exact ⟨fun _ => ⟨hno, h85⟩, fun _ => hst⟩
      · intro hdr hc
        exact absurd ⟨hk.mpr ⟨("drone"), by decide, hdr⟩, hc⟩ h1
      · intro hc
        rw [hmain, if_neg, if_neg]
        · exact fun h => absurd h (not_lt.mpr hc)
        · rw [htank]; rintro ⟨h, -⟩; exact absurd h (by decide)
      · intro hc
        rw [hmain, if_neg, if_pos hc]
        rw [htank]; rintro ⟨h, -⟩; exact absurd h (by decide)

/-- The per-box result record, DetectionResult in main.py lines 129 to 138.
The opaque id and wall-clock time stamp are omitted: no claim concerns them
and both are fresh per call. -/
structure Det where
  objectName : String
  status : String
  confidenceScore : ℚ
  bbox : Option (ℚ × ℚ × ℚ × ℚ)
  vitLabel : Option String
  vitConfidence : Option ℚ
deriving DecidableEq

/-- classify_crop, main.py lines 177 to 186.  The classifier network itself is
a black box; its answer on the crop is passed in as vitRes.  When the handle
is absent the function returns the fixed pair Unknown, 0. -/
def classify_crop (vitLoaded : Bool) (vitRes : String × ℚ) : String × ℚ :=
  if vitLoaded then vitRes else (("Unknown"), 0)

/-- The per-box fusion of run_detection, main.py lines 209 to 236 (the same
computation appears in detect_pipeline, lines 341 to 375): pick the classifier
label exactly when the classifier is loaded and its confidence strictly
exceeds the detector confidence, take the max of the two confidences when the
classifier is loaded, and populate the secondary fields only when loaded. -/
def mkDetection (vitLoaded : Bool) (vitRes : String × ℚ) (yoloLabel : String)
    (yoloConf : ℚ) (bb : ℚ × ℚ × ℚ × ℚ) : Det :=
  let vitLabel := (classify_crop vitLoaded vitRes).1
  let vitConf := (classify_crop vitLoaded vitRes).2
  let bestLabel := if vitLoaded = true ∧ vitConf > yoloConf then vitLabel else yoloLabel
  let bestConf := if vitLoaded then max vitConf yoloConf else yoloConf
  { objectName := bestLabel
    status := determine_status bestConf bestLabel
    confidenceScore := bestConf
    bbox := some bb
    vitLabel := if vitLoaded then some vitLabel else none
    vitConfidence := if vitLoaded then some vitConf else none }

/-- A raw detector box: coordinates, confidence already scaled to 0..100, and
the detector label (main.py lines 209 to 213). -/
structure YoloBox where
  x1 : ℚ
  y1 : ℚ
  x2 : ℚ
  y2 : ℚ
  conf : ℚ
  label : String
deriving DecidableEq

/-- run_detection, main.py lines 199 to 244: the detector output on the image
is mapped box by box through the per-box fusion.  The detector and the crop
of the source image fed to the classifier are black boxes supplied as
functions. -/
def run_detection {Im : Type} (yolo : Im → List YoloBox) (vitLoaded : Bool)
    (vit : Im → String × ℚ) (cropFn : Im → ℚ × ℚ × ℚ × ℚ → Im) (img : Im) : List Det :=
  (yolo img).map fun b =>
    mkDetection vitLoaded (vit (cropFn img (b.x1, b.y1, b.x2, b.y2))) b.label b.conf
      (b.x1, b.y1, b.x2, b.y2)

/-- C2: fusion policy per detected box.  With the classifier loaded and
returning label l at confidence v against detector confidence d, the pipeline
adopts l and v exactly when v strictly exceeds d, otherwise the detector
label and d; the fused confidence is always the max of d and v when loaded.
With the classifier absent, the box keeps the detector label and confidence
and the secondary fields stay unpopulated. -/
theorem c2_fusion_policy (vitLoaded : Bool) (l : String) (v : ℚ) (yl : String)
    (d : ℚ) (bb : ℚ × ℚ × ℚ × ℚ) :
    (vitLoaded = true →
      (v > d → (mkDetection vitLoaded (l, v) yl d bb).objectName = l ∧
        (mkDetection vitLoaded (l, v) yl d bb).confidenceScore = v) ∧
      (v ≤ d → (mkDetection vitLoaded (l, v) yl d bb).objectName = yl ∧
        (mkDetection vitLoaded (l, v) yl d bb).confidenceScore = d) ∧
      (mkDetection vitLoaded (l, v) yl d bb).confidenceScore = max d v) ∧
    (vitLoaded = false →
      (mkDetection vitLoaded (l, v) yl d bb).objectName = yl ∧
      (mkDetection vitLoaded (l, v) yl d bb).confidenceScore = d ∧
      (mkDetection vitLoaded (l, v) yl d bb).vitLabel = none ∧
      (mkDetection vitLoaded (l, v) yl d bb).vitConfidence = none) := by
  constructor
  · rintro rfl
    refine ⟨?_, ?_, ?_⟩
    · intro hv
      constructor
      · simp [mkDetection, classify_crop, hv]
      · simp [mkDetection, classify_crop, le_of_lt hv, max_eq_left]
    · intro hv
      constructor
      · simp [mkDetection, classify_crop, not_lt.mpr hv]
      · simp [mkDetection, classify_crop, max_eq_right hv]
    · simp [mkDetection, classify_crop, max_comm v d]
  · rintro rfl
    simp [mkDetection, classify_crop]

/-- C2 witness: both fusion branches and the degraded mode at concrete
inputs, obtained through c2_fusion_policy. -/
theorem c2_fusion_policy_witness :
    ((mkDetection true (("drone"), 95) ("bird") 90 (0, 0, 1, 1)).objectName = ("drone") ∧
      (mkDetection true (("drone"), 95) ("bird") 90 (0, 0, 1, 1)).confidenceScore = 95) ∧
    ((mkDetection true (("drone"), 70) ("bird") 90 (0, 0, 1, 1)).objectName = ("bird") ∧
      (mkDetection true (("drone"), 70) ("bird") 90 (0, 0, 1, 1)).confidenceScore = 90) ∧
    ((mkDetection false (("drone"), 95) ("bird") 90 (0, 0, 1, 1)).objectName = ("bird") ∧
      (mkDetection false (("drone"), 95) ("bird") 90 (0, 0, 1, 1)).vitLabel = none) := by
  refine ⟨?_, ?_, ?_⟩
  · exact ((c2_fusion_policy true ("drone") 95 ("bird") 90 (0, 0, 1, 1)).1 rfl).1 (by norm_num)
  · exact ((c2_fusion_policy true ("drone") 70 ("bird") 90 (0, 0, 1, 1)).1 rfl).2.1 (by norm_num)
  · have h := (c2_fusion_policy false ("drone") 95 ("bird") 90 (0, 0, 1, 1)).2 rfl
    exact ⟨h.1, h.2.2.1⟩

/-- Python int truncation toward zero, applied to box coordinates in
draw_detections, main.py line 257. -/
def pyInt (q : ℚ) : Int := if 0 ≤ q then q.floor else -((-q).floor)

/-- The Python float format directive with zero decimals rounds half to
even; used by the label text of draw_detections, main.py line 260. -/
def roundHalfEven (q : ℚ) : Int :=
  let f := q.floor
  let r := q - (f : ℚ)
  if r < 1 / 2 then f
  else if 1 / 2 < r then f + 1
  else if f % 2 = 0 then f else f + 1

/-- The label text drawn above a box, main.py line 260: object name, a
space, the confidence rounded to zero decimals, and a percent sign. -/
def fmtLabel (name : String) (conf : ℚ) : String :=
  name ++ (" ") ++ toString (roundHalfEven conf) ++ ("%")

/-- One OpenCV drawing primitive recorded on an image buffer.  Colors are
BGR triples as in main.py lines 249 to 253. -/
inductive DrawOp
  | rect (x1 y1 x2 y2 : Int) (color : Nat × Nat × Nat) (thickness : Nat)
  | text (s : String) (x y : Int) (color : Nat × Nat × Nat)
deriving DecidableEq

/-- STATUS_COLORS.get with its gray default, main.py lines 249 to 258. -/
def statusColor (s : String) : Nat × Nat × Nat :=
  if s = ("threat") then (0, 0, 255)
  else if s = ("verified") then (0, 200, 0)
  else if s = ("analyzing") then (0, 200, 255)
  else (200, 200, 200)

/-- The two primitives drawn for one detection carrying a bounding box,
main.py lines 256 to 262: a rectangle of thickness 2 in the status color and
the label text 8 pixels above the top-left corner; nothing for a detection
without a box. -/
def opsFor (d : Det) : List DrawOp :=
  match d.bbox with
  | some (x1, y1, x2, y2) =>
    [DrawOp.rect (pyInt x1) (pyInt y1) (pyInt x2) (pyInt y2) (statusColor d.status) 2,
     DrawOp.text (fmtLabel d.objectName d.confidenceScore) (pyInt x1) (pyInt y1 - 8)
       (statusColor d.status)]
  | none => []

/-- All primitives drawn for a detection list, in loop order. -/
def detOps : List Det → List DrawOp
  | [] => []
  | d :: ds => opsFor d ++ detOps ds

/-- An image buffer: an opaque base pixel matrix plus the drawing
primitives applied to it. -/
structure Img (β : Type) where
  base : β
  ops : List DrawOp
deriving DecidableEq

/-- A store of image buffers addressed by reference, so that in-place
mutation by the OpenCV calls and the numpy copy in draw_detections are
explicit. -/
structure Heap (β : Type) where
  mem : Nat → Img β
  next : Nat

/-- In-place application of one primitive to the buffer at reference r. -/
def appendOp {β : Type} (h : Heap β) (r : Nat) (op : DrawOp) : Heap β :=
  { mem := fun i =>
      if i = r then { base := (h.mem r).base, ops := (h.mem r).ops ++ [op] } else h.mem i
    next := h.next }

/-- cv2.rectangle, mutating the buffer at r. -/
def cvRectangle {β : Type} (h : Heap β) (r : Nat) (x1 y1 x2 y2 : Int)
    (color : Nat × Nat × Nat) (th : Nat) : Heap β :=
  appendOp h r (DrawOp.rect x1 y1 x2 y2 color th)

/-- cv2.putText, mutating the buffer at r. -/
def cvPutText {β : Type} (h : Heap β) (r : Nat) (s : String) (x y : Int)
    (color : Nat × Nat × Nat) : Heap β :=
  appendOp h r (DrawOp.text s x y color)

/-- image_np.copy, main.py line 254: a fresh reference holding the same
content. -/
def imgCopy {β : Type} (h : Heap β) (r : Nat) : Heap β × Nat :=
  ({ mem := fun i => if i = h.next then h.mem r else h.mem i, next := h.next + 1 }, h.next)

/-- The loop body of draw_detections for one detection, main.py lines 255
to 262. -/
def drawOne {β : Type} (h : Heap β) (ann : Nat) (d : Det) : Heap β :=
  match d.bbox with
  | some (x1, y1, x2, y2) =>
    cvPutText
      (cvRectangle h ann (pyInt x1) (pyInt y1) (pyInt x2) (pyInt y2) (statusColor d.status) 2)
      ann (fmtLabel d.objectName d.confidenceScore) (pyInt x1) (pyInt y1 - 8)
      (statusColor d.status)
  | none => h

/-- The full loop of draw_detections over the detection list. -/
def drawLoop {β : Type} (h : Heap β) (ann : Nat) : List Det → Heap β
  | [] => h
  | d :: ds => drawLoop (drawOne h ann d) ann ds

/-- draw_detections, main.py lines 247 to 263: copy the input buffer, draw
each detection on the copy, return the heap and the reference of the copy. -/
def draw_detections {β : Type} (h : Heap β) (img : Nat) (dets : List Det) : Heap β × Nat :=
  let p := imgCopy h img
  (drawLoop p.1 p.2 dets, p.2)

theorem drawOne_mem_ne {β : Type} (h : Heap β) (ann r : Nat) (d : Det) (hr : r ≠ ann) :
    (drawOne h ann d).mem r = h.mem r := by
  cases hbb : d.bbox with
  | none => simp [drawOne, hbb]
  | some bb =>
    obtain ⟨x1, y1, x2, y2⟩ := bb
    simp [drawOne, hbb, cvPutText, cvRectangle, appendOp, hr]

theorem drawOne_mem_ann {β : Type} (h : Heap β) (ann : Nat) (d : Det) :
    (drawOne h ann d).mem ann
      = { base := (h.mem ann).base, ops := (h.mem ann).ops ++ opsFor d } := by
  cases hbb : d.bbox with
  | none => simp [drawOne, hbb, opsFor]
  | some bb =>
    obtain ⟨x1, y1, x2, y2⟩ := bb
    simp [drawOne, hbb, opsFor, cvPutText, cvRectangle, appendOp]

theorem drawLoop_mem_ne {β : Type} (ann r : Nat) (hr : r ≠ ann) :
    ∀ (ds : List Det) (h : Heap β), (drawLoop h ann ds).mem r = h.mem r
  | [], _ => rfl
  | d :: ds, h => by
    rw [drawLoop, drawLoop_mem_ne ann r hr ds, drawOne_mem_ne h ann r d hr]

theorem drawLoop_mem_ann {β : Type} (ann : Nat) :
    ∀ (ds : List Det) (h : Heap β),
      (drawLoop h ann ds).mem ann
        = { base := (h.mem ann).base, ops := (h.mem ann).ops ++ detOps ds }
  | [], h => by simp [drawLoop, detOps]
  | d :: ds, h => by
    rw [drawLoop, drawLoop_mem_ann ann ds, drawOne_mem_ann h ann d]
    simp [detOps, List.append_assoc]

/-- C9: the annotator is pure with respect to its image argument: it
allocates a fresh buffer, every pre-existing buffer, in particular the
input, is left byte for byte unchanged, and the fresh buffer holds the
input content plus, per detection with a bounding box, one rectangle in
the status color of thickness 2 and one label text above the box; the
status-to-color map sends threat to red, verified to green, analyzing to
amber, and everything else to gray. -/
theorem c9_annotator (β : Type) (h : Heap β) (img : Nat) (dets : List Det)
    (himg : img < h.next) :
    (draw_detections h img dets).2 = h.next ∧
    (draw_detections h img dets).2 ≠ img ∧
    (∀ r, r < h.next → ((draw_detections h img dets).1).mem r = h.mem r) ∧
    (((draw_detections h img dets).1).mem (draw_detections h img dets).2).base
      = (h.mem img).base ∧
    (((draw_detections h img dets).1).mem (draw_detections h img dets).2).ops
      = (h.mem img).ops ++ detOps dets ∧
    (∀ d x1 y1 x2 y2, d.bbox = some (x1, y1, x2, y2) →
      opsFor d =
        [DrawOp.rect (pyInt x1) (pyInt y1) (pyInt x2) (pyInt y2) (statusColor d.status) 2,
         DrawOp.text (fmtLabel d.objectName d.confidenceScore) (pyInt x1) (pyInt y1 - 8)
           (statusColor d.status)]) ∧
    statusColor ("threat") = (0, 0, 255) ∧
    statusColor ("verified") = (0, 200, 0) ∧
    statusColor ("analyzing") = (0, 200, 255) ∧
    (∀ s, s ≠ ("threat") → s ≠ ("verified") → s ≠ ("analyzing") →
      statusColor s = (200, 200, 200)) := by
  refine ⟨rfl, Nat.ne_of_gt himg, ?_, ?_, ?_, ?_, by decide, by decide, by decide, ?_⟩
  · intro r hr
    show (drawLoop _ h.next dets).mem r = h.mem r
    rw [drawLoop_mem_ne h.next r (Nat.ne_of_lt hr) dets]
    simp [imgCopy, Nat.ne_of_lt hr]
  · show ((drawLoop _ h.next dets).mem h.next).base = (h.mem img).base
    rw [drawLoop_mem_ann h.next dets]
    simp [imgCopy]
  · show ((drawLoop _ h.next dets).mem h.next).ops = (h.mem img).ops ++ detOps dets
    rw [drawLoop_mem_ann h.next dets]
    simp [imgCopy]
  · intro d x1 y1 x2 y2 hbb
    simp [opsFor, hbb]
  · intro s h1 h2 h3
    simp [statusColor, h1, h2, h3]

/-- C9 witness: a concrete one-buffer heap and one detection, through
c9_annotator. -/
theorem c9_annotator_witness :
    (draw_detections (β := Nat) ⟨fun _ => ⟨0, []⟩, 1⟩ 0
        [⟨("drone"), ("threat"), 95, some (10, 20, 30, 40), none, none⟩]).2 = 1 ∧
    ((draw_detections (β := Nat) ⟨fun _ => ⟨0, []⟩, 1⟩ 0
        [⟨("drone"), ("threat"), 95, some (10, 20, 30, 40), none, none⟩]).1).mem 0
      = ⟨0, []⟩ ∧
    (((draw_detections (β := Nat) ⟨fun _ => ⟨0, []⟩, 1⟩ 0
        [⟨("drone"), ("threat"), 95, some (10, 20, 30, 40), none, none⟩]).1).mem 1).ops
      = detOps [⟨("drone"), ("threat"), 95, some (10, 20, 30, 40), none, none⟩] := by
  have h := c9_annotator Nat ⟨fun _ => ⟨0, []⟩, 1⟩ 0
    [⟨("drone"), ("threat"), 95, some (10, 20, 30, 40), none, none⟩] (by decide)
  refine ⟨h.1, h.2.2.1 0 (by decide), ?_⟩
  have h5 := h.2.2.2.2.1
  simpa using h5

/-- The annotated buffer produced for one processed frame by
process_video_frame, main.py lines 457 to 461: the raw frame content with
the draw primitives of its full, unfiltered detection list. -/
def annot {β : Type} (detect : β → List Det) (b : β) : Img β :=
  ⟨b, detOps (detect b)⟩

/-- Loop state of detect_video, main.py lines 499 to 560.  Frames written to
the video writer are collected in outFrames; the base64 payloads, time
stamps and the thumbnail are omitted. -/
structure VideoState (β : Type) where
  outFrames : List (Img β)
  frameRecs : List (Nat × List Det)
  lastAnn : Option (Img β)
  frameIdx : Nat
  processedCount : Nat
  peakFrame : Nat
  peakCount : Nat
  threatCount : Nat
  verifiedCount : Nat
  analyzingCount : Nat
  allConfs : List ℚ
  allObjs : List String

/-- The state before the first iteration, main.py lines 499 to 512. -/
def initVideoState {β : Type} : VideoState β :=
  ⟨[], [], none, 0, 0, 0, 0, 0, 0, 0, [], []⟩

/-- One iteration of the detect_video while loop, main.py lines 514 to 560.
A frame at an index divisible by the interval runs the pipeline: the
annotated buffer uses the full detection list, the record and every
aggregate use the confidence-filtered list, and the elif chain of the
status counters is rendered as three disjoint countP calls.  Any other
frame only writes the cached annotated buffer, or the raw frame when no
frame was processed yet. -/
def videoStep {β : Type} (interval : Nat) (confTh : ℚ) (detect : β → List Det)
    (s : VideoState β) (frame : β) : VideoState β :=
  if s.frameIdx % interval = 0 then
    let dets := detect frame
    let ann := annot detect frame
    let fdets := dets.filter fun d => decide (confTh ≤ d.confidenceScore)
    { outFrames := s.outFrames ++ [ann]
      frameRecs := s.frameRecs ++ [(s.frameIdx, fdets)]
      lastAnn := some ann
      frameIdx := s.frameIdx + 1
      processedCount := s.processedCount + 1
      peakFrame := if s.peakCount < fdets.length then s.frameIdx else s.peakFrame
      peakCount := if s.peakCount < fdets.length then fdets.length else s.peakCount
      threatCount := s.threatCount + fdets.countP fun d => d.status == ("threat")
      verifiedCount := s.verifiedCount + fdets.countP fun d => d.status == ("verified")
      analyzingCount := s.analyzingCount + fdets.countP fun d =>
        !(d.status == ("threat")) && !(d.status == ("verified"))
      allConfs := s.allConfs ++ fdets.map fun d => d.confidenceScore
      allObjs := s.allObjs ++ fdets.map fun d => d.objectName }
  else
    { s with
      outFrames := s.outFrames ++ [(s.lastAnn).getD ⟨frame, []⟩]
      frameIdx := s.frameIdx + 1 }

/-- The detect_video frame loop, folded over the whole frame stream. -/
def videoAux {β : Type} (interval : Nat) (confTh : ℚ) (detect : β → List Det) :
    VideoState β → List β → VideoState β
  | s, [] => s
  | s, f :: fs => videoAux interval confTh detect (videoStep interval confTh detect s f) fs

/-- detect_video, main.py lines 464 to 615, restricted to the frame loop and
its aggregates. -/
def detect_video {β : Type} (interval : Nat) (confTh : ℚ) (detect : β → List Det)
    (frames : List β) : VideoState β :=
  videoAux interval confTh detect initVideoState frames

/-- The output frame sequence the loop writes, by direct recursion with the
running index and the cached annotated buffer explicit. -/
def outSeq {β : Type} (interval : Nat) (detect : β → List Det) :
    Nat → Option (Img β) → List β → List (Img β)
  | _, _, [] => []
  | idx, last, f :: fs =>
    if idx % interval = 0 then
      annot detect f :: outSeq interval detect (idx + 1) (some (annot detect f)) fs
    else
      last.getD ⟨f, []⟩ :: outSeq interval detect (idx + 1) last fs

/-- The frame records the loop appends: one per processed frame, with the
confidence-filtered detections. -/
def recSeq {β : Type} (interval : Nat) (confTh : ℚ) (detect : β → List Det) :
    Nat → List β → List (Nat × List Det)
  | _, [] => []
  | idx, f :: fs =>
    if idx % interval = 0 then
      (idx, (detect f).filter fun d => decide (confTh ≤ d.confidenceScore))
        :: recSeq interval confTh detect (idx + 1) fs
    else recSeq interval confTh detect (idx + 1) fs

theorem videoAux_outFrames {β : Type} (interval : Nat) (confTh : ℚ)
    (detect : β → List Det) :
    ∀ (fs : List β) (s : VideoState β),
      (videoAux interval confTh detect s fs).outFrames
        = s.outFrames ++ outSeq interval detect s.frameIdx s.lastAnn fs
  | [], s => by simp [videoAux, outSeq]
  | f :: fs, s => by
    rw [videoAux, videoAux_outFrames interval confTh detect fs]
    by_cases hp : s.frameIdx % interval = 0
    · simp [videoStep, outSeq, hp]
    · simp [videoStep, outSeq, hp]

theorem videoAux_frameRecs {β : Type} (interval : Nat) (confTh : ℚ)
    (detect : β → List Det) :
    ∀ (fs : List β) (s : VideoState β),
      (videoAux interval confTh detect s fs).frameRecs
        = s.frameRecs ++ recSeq interval confTh detect s.frameIdx fs
  | [], s => by simp [videoAux, recSeq]
  | f :: fs, s => by
    rw [videoAux, videoAux_frameRecs interval confTh detect fs]
    by_cases hp : s.frameIdx % interval = 0
    · simp [videoStep, recSeq, hp]
    · simp [videoStep, recSeq, hp]

theorem outSeq_length {β : Type} (interval : Nat) (detect : β → List Det) :
    ∀ (fs : List β) (idx : Nat) (last : Option (Img β)),
      (outSeq interval detect idx last fs).length = fs.length
  | [], _, _ => rfl
  | f :: fs, idx, last => by
    by_cases hp : idx % interval = 0 <;>
      simp [outSeq, hp, outSeq_length interval detect fs]

theorem recSeq_map_fst {β : Type} (interval : Nat) (confTh : ℚ)
    (detect : β → List Det) :
    ∀ (fs : List β) (idx : Nat),
      (recSeq interval confTh detect idx fs).map Prod.fst
        = (((List.range fs.length).map fun j => idx + j).filter
            fun j => decide (j % interval = 0))
  | [], _ => rfl
  | f :: fs, idx => by
    have hrange : ((List.range (fs.length + 1)).map fun j => idx + j)
        = idx :: ((List.range fs.length).map fun j => (idx + 1) + j) := by
      rw [List.range_succ_eq_map, List.map_cons, List.map_map]
      refine congrArg₂ _ (by omega) (List.map_congr_left fun j _ => ?_)
      simp [Function.comp]
      omega
    rw [List.length_cons, hrange]
    by_cases hp : idx % interval = 0
    · simp [recSeq, hp, recSeq_map_fst interval confTh detect fs]
    · simp [recSeq, hp, recSeq_map_fst interval confTh detect fs]

/-- map Prod.fst of the frame records of a full run, from index zero. -/
theorem frameRecs_fst {β : Type} (interval : Nat) (confTh : ℚ)
    (detect : β → List Det) (frames : List β) :
    (detect_video interval confTh detect frames).frameRecs.map Prod.fst
      = ((List.range frames.length).filter fun j => decide (j % interval = 0)) := by
  rw [detect_video, videoAux_frameRecs]
  show ([] ++ recSeq interval confTh detect 0 frames).map Prod.fst = _
  rw [List.nil_append, recSeq_map_fst]
  simp

/-- Position i of the written frame sequence: when some index at or before i
counts as processed relative to the running index, the annotated content of
the most recent such frame; otherwise the cached buffer, or the raw frame
when no buffer is cached. -/
theorem outSeq_get {β : Type} (interval : Nat) (detect : β → List Det) :
    ∀ (fs : List β) (idx : Nat) (last : Option (Img β)) (i : Nat), i < fs.length →
      (outSeq interval detect idx last fs)[i]?
        = if (idx + i) % interval ≤ i
          then (fs[i - (idx + i) % interval]?).map (annot detect)
          else (fs[i]?).map fun b => last.getD ⟨b, []⟩
  | [], _, _, i, hi => absurd hi (Nat.not_lt_zero i)
  | f :: fs, idx, last, 0, _ => by
    by_cases hp : idx % interval = 0
    · simp [outSeq, hp]
    · have hr : ¬((idx + 0) % interval ≤ 0) := by
        simp only [Nat.add_zero]
        exact fun h => hp (Nat.le_zero.mp h)
      rw [if_neg hr]
      simp [outSeq, hp]
  | f :: fs, idx, last, j + 1, hi => by
    have hj : j < fs.length := Nat.lt_of_succ_lt_succ hi
    have harr : idx + 1 + j = idx + (j + 1) := by omega
    rcases Nat.lt_trichotomy ((idx + (j + 1)) % interval) (j + 1) with hlt | heq | hgt
    · have hle : (idx + (j + 1)) % interval ≤ j := Nat.lt_succ_iff.mp hlt
      rw [if_pos (Nat.le_of_lt hlt)]
      have hsub : j + 1 - (idx + (j + 1)) % interval
          = (j - (idx + (j + 1)) % interval) + 1 := by omega
      by_cases hp : idx % interval = 0
      · have ih := outSeq_get interval detect fs (idx + 1) (some (annot detect f)) j hj
        rw [harr, if_pos hle] at ih
        simp only [outSeq, if_pos hp, List.getElem?_cons_succ]
        rw [ih, hsub, List.getElem?_cons_succ]
      · have ih := outSeq_get interval detect fs (idx + 1) last j hj
        rw [harr, if_pos hle] at ih
        simp only [outSeq, if_neg hp, List.getElem?_cons_succ]
        rw [ih, hsub, List.getElem?_cons_succ]
    · have hp : idx % interval = 0 := by
        have hq := Nat.div_add_mod (idx + (j + 1)) interval
        rw [heq] at hq
        have hidx : idx = interval * ((idx + (j + 1)) / interval) := by omega
        rw [hidx]
        exact Nat.mul_mod_right _ _
      have ih := outSeq_get interval detect fs (idx + 1) (some (annot detect f)) j hj
      rw [harr, if_neg (by omega)] at ih
      rw [if_pos (Nat.le_of_eq heq)]
      have hzero : j + 1 - (idx + (j + 1)) % interval = 0 := by omega
      rw [hzero]
      simp only [outSeq, if_pos hp, List.getElem?_cons_succ]
      rw [ih, List.getElem?_eq_getElem hj]
      simp
    · have hp : ¬(idx % interval = 0) := by
        intro hp0
        obtain ⟨q, hq⟩ := Nat.dvd_of_mod_eq_zero hp0
        rw [hq, Nat.mul_add_mod] at hgt
        have := Nat.mod_le (j + 1) interval
        omega
      have ih := outSeq_get interval detect fs (idx + 1) last j hj
      rw [harr, if_neg (by omega)] at ih
      rw [if_neg (by omega)]
      simp only [outSeq, if_neg hp, List.getElem?_cons_succ]
      rw [ih]

/-- C3: frame sampling.  A frame contributes a frame record, that is, runs
the image pipeline, exactly when its index is divisible by the interval
(conjunct one, listing the processed indices in stream order); every frame
of the input is written to the output (conjunct two); the frame written at
index i carries the annotated content of the most recent processed frame at
or before i, namely the one at index i - i mod interval (conjunct three); on
the loop branch where no frame was processed yet, a skipped frame is written
raw, with no drawing primitives (conjunct four); for interval 5 and a
12 frame input exactly frames 0, 5 and 10 are processed (conjunct five). -/
theorem c3_frame_sampling (β : Type) (interval : Nat) (confTh : ℚ)
    (detect : β → List Det) (frames : List β) :
    ((detect_video interval confTh detect frames).frameRecs.map Prod.fst
        = ((List.range frames.length).filter fun j => decide (j % interval = 0))) ∧
    ((detect_video interval confTh detect frames).outFrames.length = frames.length) ∧
    (∀ i, i < frames.length →
      (detect_video interval confTh detect frames).outFrames[i]?
        = (frames[i - i % interval]?).map (annot detect)) ∧
    (∀ (s : VideoState β) (f : β), s.lastAnn = none → ¬(s.frameIdx % interval = 0) →
      (videoStep interval confTh detect s f).outFrames = s.outFrames ++ [⟨f, []⟩]) ∧
    (∀ frames12 : List β, frames12.length = 12 →
      (detect_video 5 confTh detect frames12).frameRecs.map Prod.fst = [0, 5, 10]) := by
  refine ⟨frameRecs_fst interval confTh detect frames, ?_, ?_, ?_, ?_⟩
  · rw [detect_video, videoAux_outFrames]
    show ([] ++ outSeq interval detect 0 none frames).length = _
    rw [List.nil_append, outSeq_length]
  · intro i hi
    rw [detect_video, videoAux_outFrames]
    show ([] ++ outSeq interval detect 0 none frames)[i]? = _
    rw [List.nil_append, outSeq_get interval detect frames 0 none i hi, if_pos]
    · simp
    · simpa using Nat.mod_le i interval
  · intro s f hnone hp
    simp [videoStep, hp, hnone]
  · intro frames12 h12
    rw [frameRecs_fst 5 confTh detect frames12, h12]
    decide

/-- C3 witness: a concrete 12 frame run at interval 5, through
c3_frame_sampling. -/
theorem c3_frame_sampling_witness :
    ((detect_video 5 0 (fun _ => []) (List.range 12)).frameRecs.map Prod.fst
      = [0, 5, 10]) ∧
    (detect_video 5 0 (fun _ => []) (List.range 12)).outFrames[7]?
      = ((List.range 12)[5]?).map (annot fun _ => []) := by
  have h := c3_frame_sampling Nat 5 0 (fun _ => []) (List.range 12)
  refine ⟨h.2.2.2.2 (List.range 12) (by decide), ?_⟩
  have h3 := h.2.2.1 7 (by decide)
  simpa using h3

/-- The peak update of detect_video, main.py lines 544 to 546, as a fold
step over pairs of frame index and filtered detection count. -/
def peakUpd (b p : Nat × Nat) : Nat × Nat := if b.2 < p.2 then p else b

/-- The records of a run as pairs of frame index and filtered detection
count. -/
def peakPairs {β : Type} (s : VideoState β) : List (Nat × Nat) :=
  s.frameRecs.map fun r => (r.1, r.2.length)

theorem getD_mem_of_lt {α : Type} (l : List α) (d : α) (n : Nat) (h : n < l.length) :
    l.getD n d ∈ l := by
  rw [List.getD_eq_getElem l d h]
  exact List.getElem_mem h

theorem videoAux_peak {β : Type} (interval : Nat) (confTh : ℚ)
    (detect : β → List Det) :
    ∀ (fs : List β) (s : VideoState β),
      ((videoAux interval confTh detect s fs).peakFrame,
        (videoAux interval confTh detect s fs).peakCount)
        = ((recSeq interval confTh detect s.frameIdx fs).map fun r => (r.1, r.2.length)).foldl
            peakUpd (s.peakFrame, s.peakCount)
  | [], s => by simp [videoAux, recSeq]
  | f :: fs, s => by
    rw [videoAux, videoAux_peak interval confTh detect fs]
    by_cases hp : s.frameIdx % interval = 0
    · by_cases hc : s.peakCount
          < ((detect f).filter fun d => decide (confTh ≤ d.confidenceScore)).length <;>
        simp [videoStep, hp, recSeq, peakUpd, hc]
    · simp [videoStep, hp, recSeq]

/-- The fold with strict improvement keeps the first pair attaining the
running maximum: either no entry beat the seed, or the result is an entry
that every earlier entry is strictly below and that no entry exceeds. -/
theorem peakFold_spec :
    ∀ (ps : List (Nat × Nat)) (b : Nat × Nat),
      (ps.foldl peakUpd b = b ∧ ∀ p ∈ ps, p.2 ≤ b.2) ∨
      (∃ k, k < ps.length ∧ ps.foldl peakUpd b = ps.getD k (0, 0) ∧
        b.2 < (ps.getD k (0, 0)).2 ∧
        (∀ j, j < k → (ps.getD j (0, 0)).2 < (ps.getD k (0, 0)).2) ∧
        (∀ j, j < ps.length → (ps.getD j (0, 0)).2 ≤ (ps.getD k (0, 0)).2))
  | [], b => Or.inl ⟨rfl, by simp⟩
  | p :: ps, b => by
    rw [List.foldl_cons]
    by_cases hb : b.2 < p.2
    · have hupd : peakUpd b p = p := by simp [peakUpd, hb]
      rw [hupd]
      rcases peakFold_spec ps p with ⟨heq, hall⟩ | ⟨k, hk, heq, hgt, hbefore, hmax⟩
      · refine Or.inr ⟨0, by simp, by simpa using heq, by simpa using hb, ?_, ?_⟩
        · intro j hj
          exact absurd hj (Nat.not_lt_zero j)
        · intro j hj
          cases j with
          | zero => simp
          | succ j =>
            have hj2 : j < ps.length := by simpa using hj
            simp only [List.getD_cons_succ, List.getD_cons_zero]
            exact hall _ (getD_mem_of_lt ps (0, 0) j hj2)
      · refine Or.inr ⟨k + 1, by simpa using hk, by simpa using heq, ?_, ?_, ?_⟩
        · simp only [List.getD_cons_succ]
          exact lt_trans hb hgt
        · intro j hj
          cases j with
          | zero =>
            simp only [List.getD_cons_zero, List.getD_cons_succ]
            exact hgt
          | succ j =>
            simp only [List.getD_cons_succ]
            exact hbefore j (by omega)
        · intro j hj
          cases j with
          | zero =>
            simp only [List.getD_cons_zero, List.getD_cons_succ]
            exact le_of_lt hgt
          | succ j =>
            simp only [List.getD_cons_succ]
            exact hmax j (by simpa using hj)
    · have hupd : peakUpd b p = b := by simp [peakUpd, hb]
      rw [hupd]
      rcases peakFold_spec ps b with ⟨heq, hall⟩ | ⟨k, hk, heq, hgt, hbefore, hmax⟩
      · refine Or.inl ⟨heq, ?_⟩
        intro q hq
        rcases List.mem_cons.mp hq with rfl | hq2
        · exact not_lt.mp hb
        · exact hall q hq2
      · refine Or.inr ⟨k + 1, by simpa using hk, by simpa using heq, ?_, ?_, ?_⟩
        · simp only [List.getD_cons_succ]
          exact hgt
        · intro j hj
          cases j with
          | zero =>
            simp only [List.getD_cons_zero, List.getD_cons_succ]
            exact lt_of_le_of_lt (not_lt.mp hb) hgt
          | succ j =>
            simp only [List.getD_cons_succ]
            exact hbefore j (by omega)
        · intro j hj
          cases j with
          | zero =>
            simp only [List.getD_cons_zero, List.getD_cons_succ]
            exact le_of_lt (lt_of_le_of_lt (not_lt.mp hb) hgt)
          | succ j =>
            simp only [List.getD_cons_succ]
            exact hmax j (by simpa using hj)

/-- C4: peakDetectionFrame keeps the earliest maximum.  On a nonempty input
the final peak pair is an entry of the processed-frame record sequence: all
earlier records have a strictly smaller filtered detection count and no
record at all has a larger one, so on ties the first record attaining the
maximum is the one reported. -/
theorem c4_peak_first_max (β : Type) (interval : Nat) (confTh : ℚ)
    (detect : β → List Det) (frames : List β) (hne : frames ≠ []) :
    ∃ k, k < (peakPairs (detect_video interval confTh detect frames)).length ∧
      ((detect_video interval confTh detect frames).peakFrame,
        (detect_video interval confTh detect frames).peakCount)
        = (peakPairs (detect_video interval confTh detect frames)).getD k (0, 0) ∧
      (∀ j, j < k →
        ((peakPairs (detect_video interval confTh detect frames)).getD j (0, 0)).2
          < ((peakPairs (detect_video interval confTh detect frames)).getD k (0, 0)).2) ∧
      (∀ j, j < (peakPairs (detect_video interval confTh detect frames)).length →
        ((peakPairs (detect_video interval confTh detect frames)).getD j (0, 0)).2
          ≤ ((peakPairs (detect_video interval confTh detect frames)).getD k (0, 0)).2) := by
  obtain ⟨f, fs, rfl⟩ := List.exists_cons_of_ne_nil hne
  have hrecs : (detect_video interval confTh detect (f :: fs)).frameRecs
      = recSeq interval confTh detect 0 (f :: fs) := by
    rw [detect_video, videoAux_frameRecs]
    exact List.nil_append _
  have hPP : peakPairs (detect_video interval confTh detect (f :: fs))
      = (recSeq interval confTh detect 0 (f :: fs)).map fun r => (r.1, r.2.length) := by
    rw [peakPairs, hrecs]
  have hpeak : ((detect_video interval confTh detect (f :: fs)).peakFrame,
      (detect_video interval confTh detect (f :: fs)).peakCount)
      = ((recSeq interval confTh detect 0 (f :: fs)).map fun r => (r.1, r.2.length)).foldl
          peakUpd (0, 0) :=
    videoAux_peak interval confTh detect (f :: fs) initVideoState
  have hcons : recSeq interval confTh detect 0 (f :: fs)
      = (0, (detect f).filter fun d => decide (confTh ≤ d.confidenceScore))
          :: recSeq interval confTh detect 1 fs := by
    simp only [recSeq]
    rw [if_pos (Nat.zero_mod interval)]
  rw [hPP]
  rcases peakFold_spec
      ((recSeq interval confTh detect 0 (f :: fs)).map fun r => (r.1, r.2.length)) (0, 0)
    with ⟨heq, hall⟩ | ⟨k, hk, heq, hgt, hbefore, hmax⟩
  · refine ⟨0, ?_, ?_, ?_, ?_⟩
    · rw [hcons]; simp
    · rw [hpeak, heq]
      have hmem : (0, ((detect f).filter fun d => decide (confTh ≤ d.confidenceScore)).length)
          ∈ (recSeq interval confTh detect 0 (f :: fs)).map fun r => (r.1, r.2.length) := by
        rw [hcons]; simp
      have hz := hall _ hmem
      have hzero : ((detect f).filter fun d => decide (confTh ≤ d.confidenceScore)).length = 0 := by
        simpa using hz
      rw [hcons]
      simp [hzero]
    · intro j hj
      exact absurd hj (Nat.not_lt_zero j)
    · intro j hj
      have h0 : ((recSeq interval confTh detect 0 (f :: fs)).map
          fun r => (r.1, r.2.length)).getD 0 (0, 0)
          = (0, ((detect f).filter fun d => decide (confTh ≤ d.confidenceScore)).length) := by
        rw [hcons]; simp
      have hmem : (0, ((detect f).filter fun d => decide (confTh ≤ d.confidenceScore)).length)
          ∈ (recSeq interval confTh detect 0 (f :: fs)).map fun r => (r.1, r.2.length) := by
        rw [hcons]; simp
      have hzero : ((detect f).filter fun d => decide (confTh ≤ d.confidenceScore)).length = 0 := by
        simpa using hall _ hmem
      rw [h0, hzero]
      exact hall _ (getD_mem_of_lt _ (0, 0) j hj)
  · exact ⟨k, hk, by rw [hpeak, heq], hbefore, hmax⟩

/-- C4 witness: frames 0 and 5 both carry three detections above the
threshold, later processed frames carry none; through c4_peak_first_max,
and the tie resolves to frame 0. -/
theorem c4_peak_first_max_witness :
    (∃ k, k < (peakPairs (detect_video 5 0
        (fun b => if b % 5 = 0 ∧ b < 6
          then [⟨("a"), ("analyzing"), 90, none, none, none⟩,
                ⟨("b"), ("analyzing"), 90, none, none, none⟩,
                ⟨("c"), ("analyzing"), 90, none, none, none⟩]
          else []) (List.range 12))).length ∧
      ((detect_video 5 0
        (fun b => if b % 5 = 0 ∧ b < 6
          then [⟨("a"), ("analyzing"), 90, none, none, none⟩,
                ⟨("b"), ("analyzing"), 90, none, none, none⟩,
                ⟨("c"), ("analyzing"), 90, none, none, none⟩]
          else []) (List.range 12)).peakFrame,
       (detect_video 5 0
        (fun b => if b % 5 = 0 ∧ b < 6
          then [⟨("a"), ("analyzing"), 90, none, none, none⟩,
                ⟨("b"), ("analyzing"), 90, none, none, none⟩,
                ⟨("c"), ("analyzing"), 90, none, none, none⟩]
          else []) (List.range 12)).peakCount)
        = (peakPairs (detect_video 5 0
        (fun b => if b % 5 = 0 ∧ b < 6
          then [⟨("a"), ("analyzing"), 90, none, none, none⟩,
                ⟨("b"), ("analyzing"), 90, none, none, none⟩,
                ⟨("c"), ("analyzing"), 90, none, none, none⟩]
          else []) (List.range 12))).getD k (0, 0)) ∧
    (detect_video 5 0
        (fun b => if b % 5 = 0 ∧ b < 6
          then [⟨("a"), ("analyzing"), 90, none, none, none⟩,
                ⟨("b"), ("analyzing"), 90, none, none, none⟩,
                ⟨("c"), ("analyzing"), 90, none, none, none⟩]
          else []) (List.range 12)).peakFrame = 0 := by
  constructor
  · have h := c4_peak_first_max Nat 5 0
      (fun b => if b % 5 = 0 ∧ b < 6
        then [⟨("a"), ("analyzing"), 90, none, none, none⟩,
              ⟨("b"), ("analyzing"), 90, none, none, none⟩,
              ⟨("c"), ("analyzing"), 90, none, none, none⟩]
        else []) (List.range 12) (by decide)
    obtain ⟨k, hk, hpair, -, -⟩ := h
    exact ⟨k, hk, hpair⟩
  · decide

theorem recSeq_mem {β : Type} (interval : Nat) (confTh : ℚ) (detect : β → List Det) :
    ∀ (fs : List β) (idx : Nat) (r : Nat × List Det),
      r ∈ recSeq interval confTh detect idx fs →
      ∃ fj, idx ≤ r.1 ∧ fs[r.1 - idx]? = some fj ∧
        r.2 = ((detect fj).filter fun d => decide (confTh ≤ d.confidenceScore))
  | [], _, r => fun h => absurd h (List.not_mem_nil r)
  | f :: fs, idx, r => by
    intro hmem
    by_cases hp : idx % interval = 0
    · rw [show recSeq interval confTh detect idx (f :: fs)
          = (idx, (detect f).filter fun d => decide (confTh ≤ d.confidenceScore))
              :: recSeq interval confTh detect (idx + 1) fs by
        simp only [recSeq]; rw [if_pos hp]] at hmem
      rcases List.mem_cons.mp hmem with rfl | htail
      · exact ⟨f, le_refl idx, by simp, rfl⟩
      · obtain ⟨fj, hle, hget, heq⟩ := recSeq_mem interval confTh detect fs (idx + 1) r htail
        refine ⟨fj, by omega, ?_, heq⟩
        have hstep : r.1 - idx = (r.1 - (idx + 1)) + 1 := by omega
        rw [hstep, List.getElem?_cons_succ]
        exact hget
    · rw [show recSeq interval confTh detect idx (f :: fs)
          = recSeq interval confTh detect (idx + 1) fs by
        simp only [recSeq]; rw [if_neg hp]] at hmem
      obtain ⟨fj, hle, hget, heq⟩ := recSeq_mem interval confTh detect fs (idx + 1) r hmem
      refine ⟨fj, by omega, ?_, heq⟩
      have hstep : r.1 - idx = (r.1 - (idx + 1)) + 1 := by omega
      rw [hstep, List.getElem?_cons_succ]
      exact hget

theorem videoAux_allConfs {β : Type} (interval : Nat) (confTh : ℚ)
    (detect : β → List Det) :
    ∀ (fs : List β) (s : VideoState β),
      (videoAux interval confTh detect s fs).allConfs
        = s.allConfs ++ ((recSeq interval confTh detect s.frameIdx fs).map
            fun r => r.2.map fun d => d.confidenceScore).flatten
  | [], s => by simp [videoAux, recSeq]
  | f :: fs, s => by
    rw [videoAux, videoAux_allConfs interval confTh detect fs]
    by_cases hp : s.frameIdx % interval = 0
    · simp [videoStep, hp, recSeq, List.append_assoc]
    · simp [videoStep, hp, recSeq]

theorem opsFor_mem_detOps (d : Det) :
    ∀ (ds : List Det), d ∈ ds → ∀ op ∈ opsFor d, op ∈ detOps ds
  | [], h => absurd h (List.not_mem_nil d)
  | e :: ds, h => by
    intro op hop
    simp only [detOps, List.mem_append]
    rcases List.mem_cons.mp h with rfl | htail
    · exact Or.inl hop
    · exact Or.inr (opsFor_mem_detOps d ds htail op hop)

/-- C10: the confidence threshold filters only the frame records and the
summary aggregates, not the rendering.  For a processed frame whose full
detection list holds a detection d with a bounding box and confidence below
the threshold, the output frame at that index is the annotated buffer of
the full list and still contains the rectangle of d; the frame record at
that index, being the filtered list, omits d; and the confidence aggregate
feeding totalDetections and avgConfidence collects exactly the filtered
records. -/
theorem c10_threshold_scope (β : Type) (interval : Nat) (confTh : ℚ)
    (detect : β → List Det) (frames : List β) (i : Nat) (fr : β) (d : Det)
    (x1 y1 x2 y2 : ℚ)
    (hfr : frames[i]? = some fr) (hproc : i % interval = 0)
    (hd : d ∈ detect fr) (hconf : d.confidenceScore < confTh)
    (hbb : d.bbox = some (x1, y1, x2, y2)) :
    ((detect_video interval confTh detect frames).outFrames[i]?
        = some (annot detect fr) ∧
      DrawOp.rect (pyInt x1) (pyInt y1) (pyInt x2) (pyInt y2) (statusColor d.status) 2
        ∈ (annot detect fr).ops) ∧
    (∀ r ∈ (detect_video interval confTh detect frames).frameRecs, r.1 = i → d ∉ r.2) ∧
    ((detect_video interval confTh detect frames).allConfs
      = ((detect_video interval confTh detect frames).frameRecs.map
          fun r => r.2.map fun dd => dd.confidenceScore).flatten) := by
  have hi : i < frames.length := by
    by_contra h
    rw [List.getElem?_eq_none (not_lt.mp h)] at hfr
    exact absurd hfr (by simp)
  have hrecs : (detect_video interval confTh detect frames).frameRecs
      = recSeq interval confTh detect 0 frames := by
    rw [detect_video, videoAux_frameRecs]
    exact List.nil_append _
  refine ⟨⟨?_, ?_⟩, ?_, ?_⟩
  · rw [detect_video, videoAux_outFrames]
    show ([] ++ outSeq interval detect 0 none frames)[i]? = _
    rw [List.nil_append, outSeq_get interval detect frames 0 none i hi, if_pos]
    · rw [Nat.zero_add, hproc, Nat.sub_zero, hfr]
      rfl
    · rw [Nat.zero_add, hproc]
      exact Nat.zero_le i
  · show DrawOp.rect (pyInt x1) (pyInt y1) (pyInt x2) (pyInt y2) (statusColor d.status) 2
      ∈ detOps (detect fr)
    refine opsFor_mem_detOps d (detect fr) hd _ ?_
    rw [opsFor, hbb]
    exact List.mem_cons_self _ _
  · intro r hr hri
    rw [hrecs] at hr
    obtain ⟨fj, -, hget, heq⟩ := recSeq_mem interval confTh detect frames 0 r hr
    rw [hri, Nat.sub_zero, hfr] at hget
    have hfj : fj = fr := by
      exact (Option.some.inj hget.symm)
    rw [heq, hfj]
    intro hmem
    have := (List.mem_filter.mp hmem).2
    rw [decide_eq_true_eq] at this
    exact absurd this (not_le.mpr hconf)
  · rw [hrecs, detect_video, videoAux_allConfs]
    show [] ++ _ = _
    rw [List.nil_append]
    rfl

/-- C10 witness: one below-threshold detection on frame 0 at threshold 50,
through c10_threshold_scope. -/
theorem c10_threshold_scope_witness :
    ((detect_video 5 50
        (fun b => if b = 0 then [⟨("bird"), ("analyzing"), 10, some (1, 2, 3, 4), none, none⟩]
          else []) (List.range 6)).outFrames[0]?
      = some (annot (fun b =>
          if b = 0 then [⟨("bird"), ("analyzing"), 10, some (1, 2, 3, 4), none, none⟩]
          else []) 0) ∧
      DrawOp.rect (pyInt 1) (pyInt 2) (pyInt 3) (pyInt 4) (statusColor ("analyzing")) 2
        ∈ (annot (fun b =>
            if b = 0 then [⟨("bird"), ("analyzing"), 10, some (1, 2, 3, 4), none, none⟩]
            else []) 0).ops) ∧
    (∀ r ∈ (detect_video 5 50
        (fun b => if b = 0 then [⟨("bird"), ("analyzing"), 10, some (1, 2, 3, 4), none, none⟩]
          else []) (List.range 6)).frameRecs, r.1 = 0 →
      (⟨("bird"), ("analyzing"), 10, some (1, 2, 3, 4), none, none⟩ : Det) ∉ r.2) := by
  have h := c10_threshold_scope Nat 5 50
    (fun b => if b = 0 then [⟨("bird"), ("analyzing"), 10, some (1, 2, 3, 4), none, none⟩]
      else []) (List.range 6) 0 0
    ⟨("bird"), ("analyzing"), 10, some (1, 2, 3, 4), none, none⟩ 1 2 3 4
    (by decide) (by decide) (by decide) (by decide) rfl
  exact ⟨h.1, h.2.1⟩

/-- The caller-facing outcome of an image endpoint.  invalidInput is the
HTTP 400 raised explicitly by detect_pipeline, main.py lines 322 to 324;
pythonError is an uncaught exception inside the handler, surfaced by the
framework as an internal server error, not as an invalid-input failure. -/
inductive ApiErr
  | invalidInput (detail : String)
  | pythonError
deriving DecidableEq

/-- The detect endpoint, main.py lines 287 to 293.  The decode result of
cv2.imdecode is passed in: some image on success, none on failure, since
imdecode returns None rather than raising.  The handler has no None check:
run_detection is called either way; its first statement invokes the
detector (ultralytics substitutes its default assets when the source is
None), and the following attribute access on the None image raises,
surfacing as an internal error.  The flag records whether the detector was
invoked. -/
def detect_endpoint {Im : Type} (yolo : Im → List YoloBox) (vitLoaded : Bool)
    (vit : Im → String × ℚ) (cropFn : Im → ℚ × ℚ × ℚ × ℚ → Im)
    (decoded : Option Im) : Except ApiErr (List Det) × Bool :=
  match decoded with
  | some img => (Except.ok (run_detection yolo vitLoaded vit cropFn img), true)
  | none => (Except.error ApiErr.pythonError, true)

/-- The annotated-image endpoint, main.py lines 296 to 307: identical decode
handling to detect, with the drawn primitive list as payload. -/
def detect_annotated_endpoint {Im : Type} (yolo : Im → List YoloBox) (vitLoaded : Bool)
    (vit : Im → String × ℚ) (cropFn : Im → ℚ × ℚ × ℚ × ℚ → Im)
    (decoded : Option Im) : Except ApiErr (List DrawOp) × Bool :=
  match decoded with
  | some img => (Except.ok (detOps (run_detection yolo vitLoaded vit cropFn img)), true)
  | none => (Except.error ApiErr.pythonError, true)

/-- The two-stage pipeline endpoint, main.py lines 310 to 331: a None decode
is rejected with HTTP 400 Invalid image file before either model is
touched. -/
def detect_pipeline_endpoint {Im : Type} (yolo : Im → List YoloBox) (vitLoaded : Bool)
    (vit : Im → String × ℚ) (cropFn : Im → ℚ × ℚ × ℚ × ℚ → Im)
    (decoded : Option Im) : Except ApiErr (List Det) × Bool :=
  match decoded with
  | some img => (Except.ok (run_detection yolo vitLoaded vit cropFn img), true)
  | none => (Except.error (ApiErr.invalidInput ("Invalid image file")), false)

/-- C5 counterexample: on an undecodable upload the plain detect endpoint
does not fail with InvalidInput before a model call: the detector is
invoked and the failure is an uncaught internal error. -/
theorem c5_counterexample :
    detect_endpoint (fun _ : Unit => []) false (fun _ => (("Unknown"), 0)) (fun i _ => i) none
      = (Except.error ApiErr.pythonError, true) := rfl

/-- C5 amended: only the two-stage pipeline endpoint validates decoding up
front, failing with InvalidInput before any model is invoked; the plain and
the annotated detect endpoints instead invoke the detector on the failed
decode and die with an internal error, for every model configuration. -/
theorem c5_invalid_input (Im : Type) (yolo : Im → List YoloBox) (vitLoaded : Bool)
    (vit : Im → String × ℚ) (cropFn : Im → ℚ × ℚ × ℚ × ℚ → Im) :
    detect_pipeline_endpoint yolo vitLoaded vit cropFn none
      = (Except.error (ApiErr.invalidInput ("Invalid image file")), false) ∧
    detect_endpoint yolo vitLoaded vit cropFn none
      = (Except.error ApiErr.pythonError, true) ∧
    detect_annotated_endpoint yolo vitLoaded vit cropFn none
      = (Except.error ApiErr.pythonError, true) :=
  ⟨rfl, rfl, rfl⟩

/-- C5 witness: the amended statement at a concrete model configuration,
through c5_invalid_input. -/
theorem c5_invalid_input_witness :
    detect_pipeline_endpoint (fun _ : Unit => []) false (fun _ => (("Unknown"), 0))
        (fun i _ => i) none
      = (Except.error (ApiErr.invalidInput ("Invalid image file")), false) :=
  (c5_invalid_input Unit (fun _ => []) false (fun _ => (("Unknown"), 0)) (fun i _ => i)).1

/-- The train_state dict, main.py lines 751 to 762. -/
structure TrainingState where
  status : String
  current_epoch : Nat
  total_epochs : Nat
  train_loss : ℚ
  train_acc : ℚ
  val_loss : ℚ
  val_acc : ℚ
  best_acc : ℚ
  elapsed_sec : ℚ
  message : String
deriving DecidableEq

/-- Outcome of a retrain request: the HTTP 409 conflict, the HTTP 400 for a
missing dataset path, or a started background run. -/
inductive RetrainOutcome
  | conflict
  | datasetMissing
  | started
deriving DecidableEq

/-- retrain_model, main.py lines 972 to 1007, sequentialized up to the first
update of the background thread: under the lock the request is rejected
with HTTP 409 while a run is active, leaving the record untouched (lines
988 to 990); otherwise the dataset path is checked (lines 992 to 994), and
on success the spawned thread begins by resetting the record to a fresh
training state (lines 1001 to 1007). -/
def retrain_model (st : TrainingState) (dataDirOk : Bool) (epochs : Nat) :
    RetrainOutcome × TrainingState :=
  if st.status = ("training") then (RetrainOutcome.conflict, st)
  else if !dataDirOk then (RetrainOutcome.datasetMissing, st)
  else (RetrainOutcome.started,
    { status := ("training"), current_epoch := 0, total_epochs := epochs,
      train_loss := 0, train_acc := 0, val_loss := 0, val_acc := 0,
      best_acc := 0, elapsed_sec := 0, message := ("Initialising...") })

/-- C6: a start request while the status is training is rejected with the
Conflict outcome, HTTP 409, and the training record is returned entirely
unchanged by the rejected request. -/
theorem c6_training_conflict (st : TrainingState) (dataDirOk : Bool) (epochs : Nat)
    (h : st.status = ("training")) :
    retrain_model st dataDirOk epochs = (RetrainOutcome.conflict, st) := by
  rw [retrain_model, if_pos h]

/-- C6 witness: a mid-run record survives a second start request untouched,
through c6_training_conflict. -/
theorem c6_training_conflict_witness :
    retrain_model ⟨("training"), 3, 20, 1, 2, 3, 4, 5, 6, ("Epoch 3 of 20")⟩ true 10
      = (RetrainOutcome.conflict,
         ⟨("training"), 3, 20, 1, 2, 3, 4, 5, 6, ("Epoch 3 of 20")⟩) :=
  c6_training_conflict _ true 10 rfl

/-- The two shared classifier globals as seen by a reader: false stands for
the pre-swap value and true for the post-swap value of vit_model and
VIT_CLASSES respectively. -/
structure ClsGlobals where
  model : Bool
  classes : Bool
deriving DecidableEq

/-- One assignment of the hot-swap epilogue of the training thread. -/
inductive SwapStep
  | setModel
  | setClasses
deriving DecidableEq

/-- The hot-swap epilogue of _train, main.py lines 1126 to 1129: two
successive global assignments, vit_model first and VIT_CLASSES second,
executed with no lock held. -/
def hotSwapProg : List SwapStep := [SwapStep.setModel, SwapStep.setClasses]

/-- Effect of one writer step on the globals. -/
def applySwap (g : ClsGlobals) : SwapStep → ClsGlobals
  | SwapStep.setModel => { g with model := true }
  | SwapStep.setClasses => { g with classes := true }

/-- The globals after the writer has executed its first k steps. -/
def swapAfter (k : Nat) : ClsGlobals :=
  (hotSwapProg.take k).foldl applySwap ⟨false, false⟩

/-- The pair observed by a concurrent classify_crop call, main.py lines 177
to 186, that reads vit_model after a writer steps and VIT_CLASSES after b
writer steps; the reader holds no lock, so every such schedule is
possible. -/
def observeSwap (a b : Nat) : Bool × Bool :=
  ((swapAfter a).model, (swapAfter b).classes)

/-- A consistent observation: fully old or fully new. -/
@[reducible] def consistentObs (o : Bool × Bool) : Prop :=
  o = (false, false) ∨ o = (true, true)

theorem swapAfter_model : ∀ a : Nat, (swapAfter a).model = decide (1 ≤ a)
  | 0 => rfl
  | 1 => rfl
  | n + 2 => by
    have h2 : hotSwapProg.take (n + 2) = hotSwapProg :=
      List.take_of_length_le (by simp [hotSwapProg])
    rw [swapAfter, h2]
    have h3 : decide (1 ≤ n + 2) = true := by simp
    rw [h3]
    rfl

theorem swapAfter_classes : ∀ b : Nat, (swapAfter b).classes = decide (2 ≤ b)
  | 0 => rfl
  | 1 => rfl
  | n + 2 => by
    have h2 : hotSwapProg.take (n + 2) = hotSwapProg :=
      List.take_of_length_le (by simp [hotSwapProg])
    rw [swapAfter, h2]
    have h3 : decide (2 ≤ n + 2) = true := by simp
    rw [h3]
    rfl

/-- C7 counterexample: the schedule that performs both reads between the
two assignments observes the new model handle together with the old label
set, refuting atomicity of the swap as implemented. -/
theorem c7_counterexample :
    observeSwap 1 1 = (true, false) ∧ ¬consistentObs (observeSwap 1 1) := by
  exact ⟨rfl, by decide⟩

/-- C7 amended: the swap is two successive non-atomic assignments, model
handle first and label set second.  The observed pair is exactly new-model
iff the model read happens at or after the first assignment and new-classes
iff the classes read happens at or after the second; a reader is consistent
exactly when its two reads fall on the same side of the swap in this sense,
so reads entirely before or entirely after the swap are safe, while a
reader interleaved between the assignments observes the new handle with the
old label set. -/
theorem c7_swap_not_atomic :
    (∀ a b : Nat, observeSwap a b = (decide (1 ≤ a), decide (2 ≤ b))) ∧
    (∀ a b : Nat, consistentObs (observeSwap a b) ↔ (1 ≤ a ↔ 2 ≤ b)) ∧
    (consistentObs (observeSwap 0 0) ∧ consistentObs (observeSwap 2 2)) ∧
    observeSwap 1 1 = (true, false) := by
  have hobs : ∀ a b : Nat, observeSwap a b = (decide (1 ≤ a), decide (2 ≤ b)) := by
    intro a b
    rw [observeSwap, swapAfter_model, swapAfter_classes]
  refine ⟨hobs, ?_, ⟨by decide, by decide⟩, by decide⟩
  intro a b
  rw [hobs]
  by_cases hP : 1 ≤ a <;> by_cases hQ : 2 ≤ b <;> simp [consistentObs, hP, hQ]

/-- C7 witness: consistent and mixed schedules at concrete read points,
through c7_swap_not_atomic. -/
theorem c7_swap_not_atomic_witness :
    consistentObs (observeSwap 2 2) ∧ observeSwap 1 1 = (true, false) :=
  ⟨(c7_swap_not_atomic.2.1 2 2).mpr (by decide), c7_swap_not_atomic.2.2.2⟩

/-- os.path.exists plus os.unlink over a path list, main.py lines 624 to
629, on a file system modelled as the list of existing temp paths. -/
def unlinkAll (fs paths : List String) : List String :=
  fs.filter fun p => !(paths.contains p)

/-- The finally block of detect_video, main.py lines 617 to 629.  The list
cleanup_paths is built as tmp_in.name and tmp_out.name with no guard: when
tmp_out was never assigned, because the capture failed before line 494,
that assignment itself raises NameError and no unlink runs; only the append
of tmp_final.name is wrapped in try/except NameError.  The flag reports
whether the block completed without raising. -/
def cleanupFinally (fs : List String) (tmpIn : String) (tmpOut : Option String)
    (tmpFinal : Option String) : List String × Bool :=
  match tmpOut with
  | none => (fs, false)
  | some o =>
    match tmpFinal with
    | some fin => (unlinkAll fs [tmpIn, o, fin], true)
    | none => (unlinkAll fs [tmpIn, o], true)

/-- Outcome of a video request in the temp-file model: ok, or the NameError
escaping the finally block, which also masks the HTTP 400 of the failed
open. -/
inductive VideoOutcome
  | ok
  | nameError
deriving DecidableEq

/-- detect_video, main.py lines 464 to 629, restricted to its temp-file
effects: the uploaded copy is created first, lines 479 to 481; when the
capture cannot be opened, the HTTP 400 raise of line 486 unwinds into the
finally block, which raises NameError on the unassigned tmp_out, so nothing
is unlinked; on the normal path the writer output, line 494, and the
transcode target, line 566, are created and the finally block removes all
three. -/
def detect_video_files (fs0 : List String) (openable : Bool)
    (tmpIn tmpOut tmpFinal : String) : List String × VideoOutcome :=
  let fs1 := tmpIn :: fs0
  if !openable then
    ((cleanupFinally fs1 tmpIn none none).1, VideoOutcome.nameError)
  else
    let fs2 := tmpOut :: fs1
    let fs3 := tmpFinal :: fs2
    ((cleanupFinally fs3 tmpIn (some tmpOut) (some tmpFinal)).1, VideoOutcome.ok)

/-- C8: the cleanup contract fails on the unopenable-video path.  Starting
from an empty file system, an upload that cannot be opened as a video
leaves the temp input copy on disk, because the finally block raises
NameError on the unassigned tmp_out before any unlink runs, and that
NameError also replaces the intended HTTP 400; on the success path all
three temp files are removed. -/
theorem c8_temp_cleanup :
    (detect_video_files [] false ("in.mp4") ("out.mp4") ("final.mp4")).1 = [("in.mp4")] ∧
    (detect_video_files [] false ("in.mp4") ("out.mp4") ("final.mp4")).2
      = VideoOutcome.nameError ∧
    (detect_video_files [] true ("in.mp4") ("out.mp4") ("final.mp4")).1 = [] := by
  refine ⟨rfl, rfl, by decide⟩

/-- C1 witness: concrete evaluations obtained through c1_status_heuristic. -/
theorem c1_status_heuristic_witness :
    determine_status 90 ("Drone-X7") = ("threat") ∧
    determine_status 84 ("tank") = ("analyzing") ∧
    determine_status 86 ("tank") = ("verified") := by
  refine ⟨?_, ?_, ?_⟩
  · exact (c1_status_heuristic ("Drone-X7") 90).2.2.2.1
      ⟨[], ("-x7").data, by decide⟩ (by norm_num)
  · exact (c1_status_heuristic ("tank") 84).2.2.2.2.1 (by norm_num)
  · exact (c1_status_heuristic ("tank") 86).2.2.2.2.2 (by norm_num)

end Surveillance
